import Mathlib

/-!
A shallow embedding of the vector index & consistency engine of the FAQ
helpdesk service (`app/services/embedding.py` and `app/api/endpoints.py`).

The FAISS flat index is modelled as a list of vectors of an abstract type `V`
addressed by position; `faiss.IndexFlatIP.remove_ids` on a flat index removes
the given position and shifts every later vector left by one.  The metadata
dictionary `metadata["faqs"]` (keyed by the stringified position) is modelled
as an insertion-ordered association list `List (Nat × FaqRecord)`, matching
Python's dict semantics: iteration follows insertion order, assignment to an
existing key replaces the value in place, assignment to a new key appends.
Embedding generation and the inner-product scoring are opaque collaborators,
passed in as parameters `embed : String → V` and `sim : V → V → ℚ`
(similarity scores are modelled over `ℚ`; the code only ever compares them).
`save_index` writes files; the model records each call in a `saves` counter so
that "nothing was persisted" is expressible.
-/

namespace FaqService

/-- One entry of `metadata["faqs"]`: the stable external FAQ id with its
question and optional answer. -/
structure FaqRecord where
  id : Int
  question : String
  answer : Option String
deriving DecidableEq, Repr

/-- The `result` dictionary built by `perform_check` in
`endpoints.check_and_reindex`. -/
structure CheckResult where
  status : String
  faqs_total : Nat
  missing_in_faiss : List Int
  orphaned_in_faiss : List Int
  error : Option String
deriving DecidableEq, Repr

/-- The value `EmbeddingModel.save_consistency_result` stores under
`metadata["consistency_check"]`: a timestamp and the run's result. -/
structure ConsistencyEntry where
  timestamp : String
  result : CheckResult
deriving DecidableEq, Repr

/-- The in-memory state of the `EmbeddingModel` singleton: the FAISS index
(`vecs`, positions `0..vecs.length-1`), the metadata map `metadata["faqs"]`,
the optional `metadata["consistency_check"]` entry, and a counter of
`save_index` calls standing for file persistence. -/
structure ModelState (V : Type) where
  vecs : List V
  faqs : List (Nat × FaqRecord)
  consistency_check : Option ConsistencyEntry
  saves : Nat
deriving DecidableEq

/-- The state `load_index` builds when no index file exists:
`metadata = {"faqs": {}, ...}` over an empty FAISS index. -/
def initialState (V : Type) : ModelState V := ⟨[], [], none, 0⟩

/-- Python dict assignment `metadata["faqs"][str(k)] = v`: an existing key
keeps its place in iteration order with its value replaced; a new key is
appended at the end. -/
def dictSet (l : List (Nat × FaqRecord)) (k : Nat) (v : FaqRecord) :
    List (Nat × FaqRecord) :=
  if l.any (fun p => p.1 == k) then
    l.map (fun p => if p.1 = k then (k, v) else p)
  else l ++ [(k, v)]

/-- The dictionary lookup `metadata["faqs"][str(i)]`; `none` corresponds to a
`KeyError`. -/
def lookupPos (l : List (Nat × FaqRecord)) (i : Nat) : Option FaqRecord :=
  (l.find? (fun p => p.1 == i)).map Prod.snd

/-- `EmbeddingModel.save_index`: persists index and metadata to disk
(recorded here as a counter increment; `last_updated` is not modelled). -/
def save_index {V : Type} (st : ModelState V) : ModelState V :=
  { st with saves := st.saves + 1 }

/-- `EmbeddingModel.add_or_update_faq`: scans `metadata["faqs"]` in insertion
order for the first entry whose `id` equals `faq_id`; if found, removes that
position from the FAISS index (`remove_ids`, which shifts later vectors left).
Then appends the fresh embedding at the new top position `index.ntotal` and
assigns the metadata entry for that position.  Note that the code does not
touch any other metadata entry after the removal.  Returns the new position. -/
def add_or_update_faq {V : Type} (embed : String → V) (st : ModelState V)
    (faq_id : Int) (question : String) (answer : Option String) :
    ModelState V × Nat :=
  let question_embedding := embed question
  let existing_idx : Option Nat :=
    (st.faqs.find? (fun p => p.2.id == faq_id)).map Prod.fst
  let vecs1 := match existing_idx with
    | some i => st.vecs.eraseIdx i
    | none => st.vecs
  let idx := vecs1.length
  let vecs2 := vecs1 ++ [question_embedding]
  let faqs2 := dictSet st.faqs idx ⟨faq_id, question, answer⟩
  (save_index { st with vecs := vecs2, faqs := faqs2 }, idx)

/-- `EmbeddingModel.delete_faq`: scans `metadata["faqs"]` in insertion order
for the first entry whose `id` equals `faq_id`.  If none is found it returns
`false` without touching anything.  Otherwise it removes that position from
the FAISS index and rebuilds the metadata from scratch
(`new_metadata = {"faqs": {}, "last_updated": None}` — note this drops the
`consistency_check` key), keeping every other entry with positions above the
removed one shifted down by one, then persists and returns `true`. -/
def delete_faq {V : Type} (st : ModelState V) (faq_id : Int) :
    ModelState V × Bool :=
  match (st.faqs.find? (fun p => p.2.id == faq_id)).map Prod.fst with
  | some idx_to_remove =>
      let vecs' := st.vecs.eraseIdx idx_to_remove
      let faqs' := st.faqs.filterMap (fun p =>
        if p.1 = idx_to_remove then none
        else if idx_to_remove < p.1 then some (p.1 - 1, p.2) else some p)
      (save_index ⟨vecs', faqs', none, st.saves⟩, true)
  | none => (st, false)

/-- `EmbeddingModel.save_consistency_result`: stores the report with a
timestamp under `metadata["consistency_check"]` and persists. -/
def save_consistency_result {V : Type} (now : String) (st : ModelState V)
    (result : CheckResult) : ModelState V :=
  save_index { st with consistency_check := some ⟨now, result⟩ }

/-- The body of the `/consistency-status` endpoint. -/
inductive StatusReply
  | report (timestamp : String) (result : CheckResult)
  | never_run
deriving DecidableEq, Repr

/-- `endpoints.get_consistency_status`: returns the stored
`metadata["consistency_check"]` entry, or `never_run` when the key is
absent. -/
def get_consistency_status {V : Type} (st : ModelState V) : StatusReply :=
  match st.consistency_check with
  | some e => .report e.timestamp e.result
  | none => .never_run

/-- One element of the list `EmbeddingModel.search` returns. -/
structure SearchItem where
  id : Int
  question : String
  answer : Option String
  similarity : ℚ
deriving DecidableEq, Repr

/-- Stable insertion into a list sorted by decreasing score: the new pair goes
in front of the first entry whose score is not greater, so equal scores keep
the earlier (lower) position first. -/
def insertByScore (x : Int × ℚ) : List (Int × ℚ) → List (Int × ℚ)
  | [] => [x]
  | y :: ys => if y.2 ≤ x.2 then x :: y :: ys else y :: insertByScore x ys

/-- Sorts (position, score) pairs by decreasing score, stably. -/
def sortByScoreDesc (l : List (Int × ℚ)) : List (Int × ℚ) :=
  l.foldr insertByScore []

/-- Models `faiss.IndexFlatIP.search(query, k)` on a flat index: every stored
vector is scored against the query by inner product `sim`, the `k` best
(position, score) pairs are returned in decreasing score order (ties by lowest
position), and when fewer than `k` vectors are stored the tail is padded with
the sentinel position `-1`. -/
def faissSearch {V : Type} (sim : V → V → ℚ) (vecs : List V) (q : V)
    (k : Nat) : List (Int × ℚ) :=
  let scored := vecs.enum.map (fun p => ((p.1 : Int), sim q p.2))
  let top := (sortByScoreDesc scored).take k
  top ++ List.replicate (k - top.length) (-1, 0)

/-- The result-collection loop of `EmbeddingModel.search`: sentinel `-1`
positions are skipped (`if idx != -1`); a real position is joined through
`metadata["faqs"][str(idx)]` with an unguarded lookup — `none` models the
`KeyError` that aborts the whole call when the entry is absent. -/
def joinResults (faqs : List (Nat × FaqRecord)) :
    List (Int × ℚ) → Option (List SearchItem)
  | [] => some []
  | (idx, score) :: rest =>
      if idx = -1 then joinResults faqs rest
      else
        match lookupPos faqs idx.toNat with
        | none => none
        | some r =>
            (joinResults faqs rest).map
              (fun items => ⟨r.id, r.question, r.answer, score⟩ :: items)

/-- `EmbeddingModel.search`: embeds the query, searches the FAISS index and
joins the results through the metadata map. -/
def search {V : Type} (embed : String → V) (sim : V → V → ℚ)
    (st : ModelState V) (query : String) (top_k : Nat) :
    Option (List SearchItem) :=
  joinResults st.faqs (faissSearch sim st.vecs (embed query) top_k)

/-- One alternative of the `/query` endpoint's low-confidence reply: the
answer field is stripped. -/
structure AltItem where
  id : Int
  question : String
  similarity : ℚ
deriving DecidableEq, Repr

/-- The two reply shapes of the `/query` endpoint. -/
inductive QueryReply
  | best_match (question : String) (answer : Option String) (similarity : ℚ)
  | alternatives (alts : List AltItem)
deriving DecidableEq, Repr

/-- The classification step of `endpoints.query`: keep the candidates whose
similarity is `>=` the threshold; if the first survivor's similarity is
strictly `>` the high-confidence threshold, reply with its answer, else reply
with the survivors as alternatives (answers stripped). -/
def queryClassify (results : List SearchItem)
    (threshold high_confidence : ℚ) : QueryReply :=
  match results.filter (fun r => threshold ≤ r.similarity) with
  | [] => .alternatives []
  | best :: rest =>
      if high_confidence < best.similarity then
        .best_match best.question best.answer best.similarity
      else
        .alternatives ((best :: rest).map (fun r => ⟨r.id, r.question, r.similarity⟩))

/-- The `/query` endpoint end to end: `model.search` then classification;
`none` propagates a `KeyError` raised inside `search`. -/
def query {V : Type} (embed : String → V) (sim : V → V → ℚ)
    (st : ModelState V) (q : String) (top_k : Nat)
    (threshold high_confidence : ℚ) : Option QueryReply :=
  (search embed sim st q top_k).map
    (fun results => queryClassify results threshold high_confidence)

/-- One row of the authoritative (PostgreSQL via Laravel) FAQ dataset, as
`perform_check` reads it from the fetched JSON. -/
structure PgFaq where
  id : Int
  question : String
  answer : Option String
deriving DecidableEq, Repr

/-- The outcome of the `httpx.get` fetch in `perform_check`:  the decoded
list on HTTP 200, `non200` for any other status code, `exn` for a raised
exception (network error or timeout) with its message. -/
inductive FetchOutcome
  | ok (faqs : List PgFaq)
  | non200 (body : String)
  | exn (msg : String)
deriving DecidableEq, Repr

/-- The `result` dictionary as `check_and_reindex` initialises it before the
background task runs. -/
def initialCheckResult : CheckResult := ⟨"checking", 0, [], [], none⟩

/-- The background task `perform_check` of `endpoints.check_and_reindex`.
On an exception the `except` clause stamps status `"error"` and the message;
on a non-200 response the code logs and returns early, leaving the result as
initialised.  On success it computes the id sets, adds each missing FAQ with
its authoritative question/answer (iterating the fetched list in order) and
deletes each orphaned id, then stamps `"reindexed"` or `"consistent"`.
Python iterates the difference sets in an unspecified set order; the model
fixes first-occurrence order, which the claims (stated on the underlying
sets) do not depend on. -/
def perform_check {V : Type} (embed : String → V) (st : ModelState V)
    (fetch : FetchOutcome) : CheckResult × ModelState V :=
  match fetch with
  | .exn msg => ({ initialCheckResult with status := "error", error := some msg }, st)
  | .non200 _ => (initialCheckResult, st)
  | .ok postgres_faqs =>
      let postgres_faq_ids := (postgres_faqs.map PgFaq.id).dedup
      let faiss_faq_ids := (st.faqs.map (fun p => p.2.id)).dedup
      let missing_in_faiss := postgres_faq_ids.filter (fun i => i ∉ faiss_faq_ids)
      let orphaned_in_faiss := faiss_faq_ids.filter (fun i => i ∉ postgres_faq_ids)
      let st1 := postgres_faqs.foldl
        (fun s faq =>
          if faq.id ∈ missing_in_faiss then
            (add_or_update_faq embed s faq.id faq.question faq.answer).1
          else s) st
      let st2 := orphaned_in_faiss.foldl (fun s i => (delete_faq s i).1) st1
      ({ status := if missing_in_faiss = [] ∧ orphaned_in_faiss = [] then
            "consistent" else "reindexed",
         faqs_total := postgres_faqs.length,
         missing_in_faiss := missing_in_faiss,
         orphaned_in_faiss := orphaned_in_faiss,
         error := none }, st2)

/-! ### Concrete states used to exercise the operations -/

/-- A trivial embedding collaborator for concrete runs (the claims under test
do not depend on vector geometry). -/
def e0 : String → Unit := fun _ => ()

/-- Shorthand: one `add_or_update_faq` step over the `Unit`-vector model. -/
def addU (st : ModelState Unit) (i : Int) (q : String) : ModelState Unit :=
  (add_or_update_faq e0 st i q none).1

/-- From the empty index: create id 10, create id 20, then update id 10. -/
def c1Trace : ModelState Unit :=
  addU (addU (addU (initialState Unit) 10 "q one") 20 "q two") 10 "q one v2"

/-- From the empty index: create ids 10, 20, 30, then update id 20 (which
occupies position 1, not the last position). -/
def c2Trace : ModelState Unit :=
  (add_or_update_faq e0
    (addU (addU (addU (initialState Unit) 10 "q10") 20 "q20") 30 "q30")
    20 "q20 new" none).1

/-- Four records at positions `[0,1,2,3]` with ids `[10,20,30,40]`. -/
def exampleState4 : ModelState Unit :=
  ⟨[(), (), (), ()],
   [(0, ⟨10, "q10", some "a10"⟩), (1, ⟨20, "q20", some "a20"⟩),
    (2, ⟨30, "q30", some "a30"⟩), (3, ⟨40, "q40", some "a40"⟩)], none, 0⟩

/-- An index holding ids `{2, 3, 4}` at positions `[0, 1, 2]`. -/
def c6State : ModelState Unit :=
  ⟨[(), (), ()],
   [(0, ⟨2, "q2", some "a2"⟩), (1, ⟨3, "q3", some "a3"⟩),
    (2, ⟨4, "q4", some "a4"⟩)], none, 0⟩

/-- The authoritative dataset with ids `{1, 2, 3}`. -/
def c6Pg : List PgFaq :=
  [⟨1, "q1", some "a1"⟩, ⟨2, "q2", some "a2"⟩, ⟨3, "q3", some "a3"⟩]

/-! ### C1, C2: the update path of `add_or_update_faq` -/

/-- C1 (the code violates the claimed invariant): the state reached from the
empty index by `CreateOrUpdate(10)`, `CreateOrUpdate(20)`,
`CreateOrUpdate(10)` has domain id 10 at both positions 0 and 1 — updating a
record whose position is not the last removes its old vector but leaves the
stale metadata entry in place, so a domain id can appear twice (here id 20's
metadata is overwritten while its vector remains).  The positional part of
the invariant does hold on this state: positions are `[0, 1]` and the
cardinality is 2. -/
theorem reachable_duplicate_domain_id :
    c1Trace.faqs.map (fun p => p.2.id) = [10, 10] ∧
    c1Trace.vecs.length = 2 ∧ c1Trace.faqs.map Prod.fst = [0, 1] := by
  decide

/-- C2 (the code does not renumber on update): updating id 20 in a state with
ids `[10, 20, 30]` at positions `[0, 1, 2]` removes the old vector slot and
adds the new entry at the new top position, but performs no renumbering: the
stale entry for id 20 stays at position 1 and id 30's entry is overwritten,
instead of the claimed outcome `[10, 30, 20]`. -/
theorem update_skips_metadata_renumbering :
    c2Trace.faqs =
      [(0, ⟨10, "q10", none⟩), (1, ⟨20, "q20", none⟩),
       (2, ⟨20, "q20 new", none⟩)] ∧
    c2Trace.faqs ≠
      [(0, ⟨10, "q10", none⟩), (1, ⟨30, "q30", none⟩),
       (2, ⟨20, "q20 new", none⟩)] := by
  decide

/-! ### C10: delete of an unknown id -/

/-- C10: `delete_faq` on a domain id no record carries returns `false` and
leaves the whole state unchanged — same vectors, same metadata, same
`consistency_check` entry, and the same `saves` count, so nothing was
persisted. -/
theorem delete_unknown_noop (V : Type) (st : ModelState V) (fid : Int)
    (h : ∀ p ∈ st.faqs, p.2.id ≠ fid) : delete_faq st fid = (st, false) := by
  have hnone : st.faqs.find? (fun p => p.2.id == fid) = none := by
    rw [List.find?_eq_none]
    intro p hp
    simpa using h p hp
  unfold delete_faq
  rw [hnone]
  rfl

/-- Witness for C10 at a concrete input: id 99 occurs nowhere in
`exampleState4`. -/
theorem delete_unknown_noop_witness :
    delete_faq exampleState4 99 = (exampleState4, false) :=
  delete_unknown_noop Unit exampleState4 99 (by decide)

/-! ### C5: query classification boundaries -/

/-- C5: in `query`'s classification, a candidate survives the filter iff its
similarity is `>=` the threshold (non-strict), and a `best_match` reply is
produced iff the first surviving candidate's similarity is strictly `>` the
high-confidence threshold; at the boundaries (threshold `0.6`,
high-confidence `0.8`), a candidate at exactly `0.8` is returned among the
alternatives with its answer stripped, and a candidate at exactly `0.6`
passes the filter and appears among the alternatives. -/
theorem query_classification_boundary :
    (∀ (results : List SearchItem) (t : ℚ) (r : SearchItem),
        r ∈ results.filter (fun x => t ≤ x.similarity) ↔
          r ∈ results ∧ t ≤ r.similarity) ∧
    (∀ (results : List SearchItem) (t hc : ℚ),
        (∃ q a s, queryClassify results t hc = .best_match q a s) ↔
          ∃ best rest,
            results.filter (fun x => t ≤ x.similarity) = best :: rest ∧
            hc < best.similarity) ∧
    queryClassify [⟨7, "Q", some "A", 8/10⟩] (6/10) (8/10) =
      .alternatives [⟨7, "Q", 8/10⟩] ∧
    queryClassify [⟨7, "Q", some "A", 6/10⟩] (6/10) (8/10) =
      .alternatives [⟨7, "Q", 6/10⟩] := by
  have h6le8 : ((6 : ℚ)/10 ≤ 8/10) := by norm_num
  have h8nlt8 : ¬((8 : ℚ)/10 < 8/10) := by norm_num
  have h6le6 : ((6 : ℚ)/10 ≤ 6/10) := le_refl _
  have h6nlt8 : ¬((8 : ℚ)/10 < 6/10) := by norm_num
  refine ⟨?_, ?_, ?_, ?_⟩
  · intro results t r
    simp [List.mem_filter]
  · intro results t hc
    unfold queryClassify
    rcases h : results.filter (fun x => t ≤ x.similarity) with _ | ⟨b, rest⟩ <;>
      rw [h] <;> dsimp only
    · simp
    · by_cases hhc : hc < b.similarity
      · rw [if_pos hhc]
        constructor
        · intro _
          exact ⟨b, rest, rfl, hhc⟩
        · intro _
          exact ⟨b.question, b.answer, b.similarity, rfl⟩
      · rw [if_neg hhc]
        constructor
        · rintro ⟨q, a, s, hcontra⟩
          cases hcontra
        · rintro ⟨best, rest', heq, hlt⟩
          injection heq with h1 _
          exact absurd (h1 ▸ hlt) hhc
  · simp [queryClassify, List.filter, h6le8, h8nlt8]
  · simp [queryClassify, List.filter, h6le6, h6nlt8]

/-! ### C7: reconciliation fetch failure -/

/-- C7 counterexample: when the fetch returns a non-200 response,
`perform_check` returns early and the run's report keeps status
`"checking"` with no captured message — not the claimed `"error"` state. -/
theorem non200_leaves_checking_status :
    (perform_check e0 c6State (.non200 "Internal Server Error")).1.status
        = "checking" ∧
    (perform_check e0 c6State (.non200 "Internal Server Error")).1.status
        ≠ "error" ∧
    (perform_check e0 c6State (.non200 "Internal Server Error")).1.error
        = none := by
  decide

/-- C7 (amended): a fetch failure causes no mutation of the index or
metadata in either failure mode; a raised exception (network error, timeout)
terminates the run in the `"error"` state with the message captured, while a
non-200 response terminates it with the report left at its initial
`"checking"` state and no message. -/
theorem fetch_failure_no_mutation :
    (∀ (V : Type) (embed : String → V) (st : ModelState V) (msg : String),
        perform_check embed st (.exn msg) =
          ({ initialCheckResult with status := "error", error := some msg },
           st)) ∧
    (∀ (V : Type) (embed : String → V) (st : ModelState V) (body : String),
        perform_check embed st (.non200 body) = (initialCheckResult, st)) :=
  ⟨fun _ _ _ _ => rfl, fun _ _ _ _ => rfl⟩

/-! ### C4: the consistency report is never persisted by `perform_check` -/

lemma add_or_update_faq_consistency {V : Type} (embed : String → V)
    (st : ModelState V) (i : Int) (q : String) (a : Option String) :
    (add_or_update_faq embed st i q a).1.consistency_check =
      st.consistency_check := rfl

lemma delete_faq_consistency {V : Type} (st : ModelState V) (i : Int) :
    (delete_faq st i).1.consistency_check = st.consistency_check ∨
      (delete_faq st i).1.consistency_check = none := by
  unfold delete_faq
  rcases h : (st.faqs.find? (fun p => p.2.id == i)).map Prod.fst with _ | p <;>
    rw [h]
  · exact Or.inl rfl
  · exact Or.inr rfl

lemma addFold_consistency {V : Type} (embed : String → V) (miss : List Int)
    (l : List PgFaq) (s : ModelState V) :
    (l.foldl (fun s faq =>
        if faq.id ∈ miss then
          (add_or_update_faq embed s faq.id faq.question faq.answer).1
        else s) s).consistency_check = s.consistency_check := by
  induction l generalizing s with
  | nil => rfl
  | cons x t ih =>
      rw [List.foldl_cons, ih]
      by_cases hx : x.id ∈ miss
      · rw [if_pos hx, add_or_update_faq_consistency]
      · rw [if_neg hx]

/-- The state a successful `perform_check` run leaves behind, written as the
two folds it performs (definitional). -/
lemma perform_check_ok_snd {V : Type} (embed : String → V)
    (st : ModelState V) (pg : List PgFaq) :
    (perform_check embed st (.ok pg)).2 =
      ((st.faqs.map (fun p => p.2.id)).dedup.filter
          (fun i => i ∉ (pg.map PgFaq.id).dedup)).foldl
        (fun s i => (delete_faq s i).1)
        (pg.foldl (fun s faq =>
          if faq.id ∈ (pg.map PgFaq.id).dedup.filter
              (fun i => i ∉ (st.faqs.map (fun p => p.2.id)).dedup) then
            (add_or_update_faq embed s faq.id faq.question faq.answer).1
          else s) st) := rfl

lemma delFold_consistency {V : Type} (l : List Int) (s : ModelState V) :
    (l.foldl (fun s i => (delete_faq s i).1) s).consistency_check =
        s.consistency_check ∨
      (l.foldl (fun s i => (delete_faq s i).1) s).consistency_check = none := by
  induction l generalizing s with
  | nil => exact Or.inl rfl
  | cons x t ih =>
      rw [List.foldl_cons]
      rcases ih (delete_faq s x).1 with h | h
      · rw [h]
        exact delete_faq_consistency s x
      · exact Or.inr h

/-- C4 (the code never stores the report): the status query machinery itself
works — on a fresh state it reports `never_run`, and a report stored through
`save_consistency_result` fully replaces any prior entry and is what the
status query returns — but `perform_check` never calls
`save_consistency_result`: a run leaves `metadata["consistency_check"]`
either untouched or erased (a `delete_faq` rebuild drops the key), so after
the concrete successful reconciliation run from a fresh state the status
query still reports `never_run`. -/
theorem consistency_report_never_persisted :
    get_consistency_status (initialState Unit) = .never_run ∧
    (∀ (V : Type) (now : String) (st : ModelState V) (r : CheckResult),
        get_consistency_status (save_consistency_result now st r) =
          .report now r) ∧
    (∀ (V : Type) (embed : String → V) (st : ModelState V)
        (fetch : FetchOutcome),
        (perform_check embed st fetch).2.consistency_check =
            st.consistency_check ∨
          (perform_check embed st fetch).2.consistency_check = none) ∧
    get_consistency_status (perform_check e0 c6State (.ok c6Pg)).2 =
      .never_run := by
  refine ⟨rfl, fun _ _ _ _ => rfl, ?_, by decide⟩
  intro V embed st fetch
  rcases fetch with pg | body | msg
  · rw [perform_check_ok_snd]
    rcases delFold_consistency
        ((st.faqs.map (fun p => p.2.id)).dedup.filter
          (fun i => i ∉ (pg.map PgFaq.id).dedup))
        (pg.foldl (fun s faq =>
          if faq.id ∈ (pg.map PgFaq.id).dedup.filter
              (fun i => i ∉ (st.faqs.map (fun p => p.2.id)).dedup) then
            (add_or_update_faq embed s faq.id faq.question faq.answer).1
          else s) st) with h | h
    · exact Or.inl (h.trans (addFold_consistency _ _ _ _))
    · exact Or.inr h
  · exact Or.inl rfl
  · exact Or.inl rfl

/-! ### C6: reconciliation computation and round-trip -/

lemma perform_check_ok_missing {V : Type} (embed : String → V)
    (st : ModelState V) (pg : List PgFaq) :
    (perform_check embed st (.ok pg)).1.missing_in_faiss =
      (pg.map PgFaq.id).dedup.filter
        (fun i => i ∉ (st.faqs.map (fun p => p.2.id)).dedup) := rfl

lemma perform_check_ok_orphaned {V : Type} (embed : String → V)
    (st : ModelState V) (pg : List PgFaq) :
    (perform_check embed st (.ok pg)).1.orphaned_in_faiss =
      (st.faqs.map (fun p => p.2.id)).dedup.filter
        (fun i => i ∉ (pg.map PgFaq.id).dedup) := rfl

/-- C6: a successful reconciliation run computes
`missing = authoritative − indexed` and `orphaned = indexed − authoritative`
(as sets of ids), ends with `"reindexed"` iff either list is non-empty and
`"consistent"` otherwise; on the concrete divergence (authoritative ids
`{1,2,3}`, indexed ids `{2,3,4}`) it reports `missing = [1]`,
`orphaned = [4]`, status `"reindexed"`, adds id 1 with its authoritative
question and answer, removes id 4, and a second run over the repaired state
reports `"consistent"` with empty difference lists. -/
theorem reconciliation_roundtrip :
    (∀ (V : Type) (embed : String → V) (st : ModelState V) (pg : List PgFaq)
        (i : Int),
        (i ∈ (perform_check embed st (.ok pg)).1.missing_in_faiss ↔
          i ∈ pg.map PgFaq.id ∧ i ∉ st.faqs.map (fun p => p.2.id)) ∧
        (i ∈ (perform_check embed st (.ok pg)).1.orphaned_in_faiss ↔
          i ∈ st.faqs.map (fun p => p.2.id) ∧ i ∉ pg.map PgFaq.id)) ∧
    (∀ (V : Type) (embed : String → V) (st : ModelState V) (pg : List PgFaq),
        (perform_check embed st (.ok pg)).1.status =
          if (perform_check embed st (.ok pg)).1.missing_in_faiss = [] ∧
              (perform_check embed st (.ok pg)).1.orphaned_in_faiss = []
            then "consistent" else "reindexed") ∧
    (perform_check e0 c6State (.ok c6Pg)).1 =
      ⟨"reindexed", 3, [1], [4], none⟩ ∧
    (perform_check e0 c6State (.ok c6Pg)).2.faqs =
      [(0, ⟨2, "q2", some "a2"⟩), (1, ⟨3, "q3", some "a3"⟩),
       (2, ⟨1, "q1", some "a1"⟩)] ∧
    (perform_check e0 (perform_check e0 c6State (.ok c6Pg)).2 (.ok c6Pg)).1 =
      ⟨"consistent", 3, [], [], none⟩ := by
  refine ⟨?_, fun _ _ _ _ => rfl, by decide, by decide, by decide⟩
  intro V embed st pg i
  constructor
  · rw [perform_check_ok_missing]
    simp [List.mem_filter, List.mem_dedup]
  · rw [perform_check_ok_orphaned]
    simp [List.mem_filter, List.mem_dedup]

/-! ### C3: delete renumbering -/

lemma lookupPos_eq_none_iff {l : List (Nat × FaqRecord)} {i : Nat} :
    lookupPos l i = none ↔ ∀ r, (i, r) ∉ l := by
  unfold lookupPos
  rw [Option.map_eq_none', List.find?_eq_none]
  constructor
  · intro h r hm
    exact absurd (by simp : (((i, r) : Nat × FaqRecord).1 == i) = true)
      (by simpa using h (i, r) hm)
  · intro h x hx heq
    apply h x.2
    have hx1 : x.1 = i := by simpa using heq
    have : x = (i, x.2) := by
      cases x
      simp_all
    rwa [this] at hx

lemma mem_of_lookupPos {l : List (Nat × FaqRecord)} {i : Nat} {r : FaqRecord}
    (h : lookupPos l i = some r) : (i, r) ∈ l := by
  unfold lookupPos at h
  rcases Option.map_eq_some'.1 h with ⟨x, hfind, hx⟩
  have hkey : x.1 = i := by simpa using List.find?_some hfind
  have hmem := List.mem_of_find?_eq_some hfind
  have hxir : x = (i, r) := by
    cases x
    simp_all
  rwa [hxir] at hmem

lemma lookupPos_of_mem {l : List (Nat × FaqRecord)} {i : Nat} {r : FaqRecord}
    (hnd : (l.map Prod.fst).Nodup) (hm : (i, r) ∈ l) :
    lookupPos l i = some r := by
  induction l with
  | nil => cases hm
  | cons a t ih =>
      rw [List.map_cons, List.nodup_cons] at hnd
      rcases List.mem_cons.1 hm with heq | hmt
      · rw [← heq]
        unfold lookupPos
        rw [List.find?_cons_of_pos _ (by simp)]
        rfl
      · by_cases hai : a.1 = i
        · exfalso
          apply hnd.1
          rw [hai]
          exact List.mem_map.2 ⟨(i, r), hmt, rfl⟩
        · unfold lookupPos
          rw [List.find?_cons_of_neg _ (by simpa using hai)]
          exact ih hnd.2 hmt

lemma mem_renumber {l : List (Nat × FaqRecord)} {p i : Nat} {r : FaqRecord} :
    (i, r) ∈ l.filterMap (fun q =>
        if q.1 = p then none
        else if p < q.1 then some (q.1 - 1, q.2) else some q) ↔
      (i < p ∧ (i, r) ∈ l) ∨ (p ≤ i ∧ (i + 1, r) ∈ l) := by
  rw [List.mem_filterMap]
  constructor
  · rintro ⟨⟨j, s⟩, hmem, hf⟩
    by_cases hjp : j = p
    · simp [hjp] at hf
    · by_cases hlt : p < j
      · rw [if_neg (by simpa using hjp), if_pos hlt] at hf
        simp only [Option.some.injEq, Prod.mk.injEq] at hf
        obtain ⟨h1, h2⟩ := hf
        subst h2
        right
        refine ⟨by omega, ?_⟩
        have hj : i + 1 = j := by omega
        rwa [hj]
      · rw [if_neg (by simpa using hjp), if_neg hlt] at hf
        simp only [Option.some.injEq, Prod.mk.injEq] at hf
        obtain ⟨h1, h2⟩ := hf
        subst h1
        subst h2
        left
        exact ⟨by omega, hmem⟩
  · rintro (⟨hip, hmem⟩ | ⟨hpi, hmem⟩)
    · exact ⟨(i, r), hmem, by rw [if_neg (by omega), if_neg (by omega)]⟩
    · refine ⟨(i + 1, r), hmem, ?_⟩
      rw [if_neg (by omega), if_pos (by omega)]
      simp

lemma nodup_renumber {l : List (Nat × FaqRecord)} {p : Nat}
    (hnd : (l.map Prod.fst).Nodup) :
    ((l.filterMap (fun q =>
        if q.1 = p then none
        else if p < q.1 then some (q.1 - 1, q.2) else some q)).map
      Prod.fst).Nodup := by
  have hfun : ∀ q : Nat × FaqRecord,
      ((if q.1 = p then none
        else if p < q.1 then some (q.1 - 1, q.2)
        else some q : Option (Nat × FaqRecord)).map Prod.fst) =
      (if q.1 = p then none
        else if p < q.1 then some (q.1 - 1) else some q.1) := by
    intro q
    by_cases h1 : q.1 = p
    · simp [h1]
    · by_cases h2 : p < q.1 <;> simp [h1, h2]
  have heq : (l.filterMap (fun q =>
        if q.1 = p then none
        else if p < q.1 then some (q.1 - 1, q.2) else some q)).map Prod.fst =
      (l.map Prod.fst).filterMap (fun j =>
        if j = p then none else if p < j then some (j - 1) else some j) := by
    rw [List.map_filterMap, List.filterMap_map]
    exact congrArg (fun h => List.filterMap h l) (funext hfun)
  rw [heq]
  apply hnd.filterMap
  have hg : ∀ a b : Nat,
      b ∈ (if a = p then none
        else if p < a then some (a - 1) else some a : Option Nat) →
      (p < a ∧ a = b + 1) ∨ (a < p ∧ a = b) := by
    intro a b hb
    by_cases h1 : a = p
    · simp [h1] at hb
    · by_cases h2 : p < a
      · rw [if_neg h1, if_pos h2] at hb
        left
        refine ⟨h2, ?_⟩
        have : a - 1 = b := by simpa using hb
        omega
      · rw [if_neg h1, if_neg h2] at hb
        right
        refine ⟨by omega, by simpa using hb⟩
  intro a a' b hb hb'
  rcases hg a b hb with ⟨h1, h2⟩ | ⟨h1, h2⟩ <;>
    rcases hg a' b hb' with ⟨h3, h4⟩ | ⟨h3, h4⟩ <;> omega

lemma lookupPos_renumber {l : List (Nat × FaqRecord)} {p : Nat}
    (hnd : (l.map Prod.fst).Nodup) (i : Nat) :
    lookupPos (l.filterMap (fun q =>
        if q.1 = p then none
        else if p < q.1 then some (q.1 - 1, q.2) else some q)) i =
      if i < p then lookupPos l i else lookupPos l (i + 1) := by
  by_cases hip : i < p
  · rw [if_pos hip]
    rcases h : lookupPos l i with _ | r
    · rw [lookupPos_eq_none_iff] at h ⊢
      intro r hr
      rcases mem_renumber.1 hr with ⟨_, hm⟩ | ⟨hpi, _⟩
      · exact h r hm
      · omega
    · exact lookupPos_of_mem (nodup_renumber hnd)
        (mem_renumber.2 (Or.inl ⟨hip, mem_of_lookupPos h⟩))
  · rw [if_neg hip]
    rcases h : lookupPos l (i + 1) with _ | r
    · rw [lookupPos_eq_none_iff] at h ⊢
      intro r hr
      rcases mem_renumber.1 hr with ⟨hlt, _⟩ | ⟨_, hm⟩
      · omega
      · exact h r hm
    · exact lookupPos_of_mem (nodup_renumber hnd)
        (mem_renumber.2 (Or.inr ⟨by omega, mem_of_lookupPos h⟩))

lemma delete_faq_not_found {V : Type} (st : ModelState V) (fid : Int)
    (h : ∀ q ∈ st.faqs, q.2.id ≠ fid) : delete_faq st fid = (st, false) := by
  have hnone : st.faqs.find? (fun p => p.2.id == fid) = none := by
    rw [List.find?_eq_none]
    intro q hq
    simpa using h q hq
  unfold delete_faq
  rw [hnone]
  rfl

lemma delete_faq_found {V : Type} {st : ModelState V} {fid : Int} {p : Nat}
    {r : FaqRecord}
    (hfind : st.faqs.find? (fun x => x.2.id == fid) = some (p, r)) :
    delete_faq st fid =
      (save_index ⟨st.vecs.eraseIdx p,
        st.faqs.filterMap (fun q =>
          if q.1 = p then none
          else if p < q.1 then some (q.1 - 1, q.2) else some q),
        none, st.saves⟩, true) := by
  unfold delete_faq
  rw [hfind]
  rfl

/-- C3: `delete_faq` returns `false` when no record carries the given domain
id; when the first matching record sits at position `p` (with positions
unique and `p` a live slot), it returns `true`, shrinks the index cardinality
by one, and renumbers the metadata so that positions below `p` are unchanged
while every position at or above `p` now holds the record previously at the
next position up; in particular deleting id 30 from positions `[0,1,2,3]`
holding ids `[10,20,30,40]` yields positions `[0,1,2]` holding
`[10,20,40]`. -/
theorem delete_renumbering :
    (∀ (V : Type) (st : ModelState V) (fid : Int),
        (∀ q ∈ st.faqs, q.2.id ≠ fid) → delete_faq st fid = (st, false)) ∧
    (∀ (V : Type) (st : ModelState V) (fid : Int) (p : Nat) (r : FaqRecord),
        st.faqs.find? (fun x => x.2.id == fid) = some (p, r) →
        (st.faqs.map Prod.fst).Nodup → p < st.vecs.length →
        (delete_faq st fid).2 = true ∧
        (delete_faq st fid).1.vecs.length = st.vecs.length - 1 ∧
        (∀ i, lookupPos (delete_faq st fid).1.faqs i =
          if i < p then lookupPos st.faqs i else lookupPos st.faqs (i + 1))) ∧
    ((delete_faq exampleState4 30).2 = true ∧
      (delete_faq exampleState4 30).1.faqs =
        [(0, ⟨10, "q10", some "a10"⟩), (1, ⟨20, "q20", some "a20"⟩),
         (2, ⟨40, "q40", some "a40"⟩)] ∧
      (delete_faq exampleState4 30).1.vecs.length = 3) := by
  refine ⟨fun V => delete_faq_not_found, ?_, by decide, by decide, by decide⟩
  intro V st fid p r hfind hnd hp
  rw [delete_faq_found hfind]
  refine ⟨rfl, ?_, ?_⟩
  · show (st.vecs.eraseIdx p).length = st.vecs.length - 1
    have := List.length_eraseIdx_add_one hp
    omega
  · intro i
    exact lookupPos_renumber hnd i

/-- Witness for C3 at the spec's concrete input: after deleting id 30 from
`exampleState4`, position 2 holds what position 3 held before. -/
theorem delete_renumbering_witness :
    lookupPos (delete_faq exampleState4 30).1.faqs 2 =
      lookupPos exampleState4.faqs 3 := by
  have h := (delete_renumbering.2.1 Unit exampleState4 30 2
    ⟨30, "q30", some "a30"⟩ (by decide) (by decide) (by decide)).2.2 2
  simpa using h

/-! ### C8, C9: search over the FAISS index and the metadata join -/

lemma length_insertByScore (x : Int × ℚ) (l : List (Int × ℚ)) :
    (insertByScore x l).length = l.length + 1 := by
  induction l with
  | nil => rfl
  | cons y ys ih =>
      unfold insertByScore
      by_cases h : y.2 ≤ x.2
      · rw [if_pos h]
        rfl
      · rw [if_neg h, List.length_cons, List.length_cons, ih]

lemma length_sortByScoreDesc (l : List (Int × ℚ)) :
    (sortByScoreDesc l).length = l.length := by
  induction l with
  | nil => rfl
  | cons a t ih =>
      show (insertByScore a (sortByScoreDesc t)).length = t.length + 1
      rw [length_insertByScore, ih]

lemma mem_insertByScore {x y : Int × ℚ} {l : List (Int × ℚ)}
    (h : y ∈ insertByScore x l) : y = x ∨ y ∈ l := by
  induction l with
  | nil => simpa [insertByScore] using h
  | cons a t ih =>
      unfold insertByScore at h
      by_cases ha : a.2 ≤ x.2
      · rw [if_pos ha] at h
        rcases List.mem_cons.1 h with h1 | h1
        · exact Or.inl h1
        · exact Or.inr h1
      · rw [if_neg ha] at h
        rcases List.mem_cons.1 h with h1 | h1
        · exact Or.inr (List.mem_cons.2 (Or.inl h1))
        · rcases ih h1 with h2 | h2
          · exact Or.inl h2
          · exact Or.inr (List.mem_cons.2 (Or.inr h2))

lemma mem_sortByScoreDesc {l : List (Int × ℚ)} {y : Int × ℚ}
    (h : y ∈ sortByScoreDesc l) : y ∈ l := by
  induction l with
  | nil => cases h
  | cons a t ih =>
      have h' : y ∈ insertByScore a (sortByScoreDesc t) := h
      rcases mem_insertByScore h' with h1 | h1
      · exact List.mem_cons.2 (Or.inl h1)
      · exact List.mem_cons.2 (Or.inr (ih h1))

lemma mem_faissSearch {V : Type} {sim : V → V → ℚ} {vecs : List V} {q : V}
    {k : Nat} {x : Int × ℚ} (h : x ∈ faissSearch sim vecs q k) :
    x = ((-1 : Int), (0 : ℚ)) ∨ ∃ n : Nat, n < vecs.length ∧ x.1 = (n : Int) := by
  unfold faissSearch at h
  rcases List.mem_append.1 h with h | h
  · right
    have h2 := mem_sortByScoreDesc (List.mem_of_mem_take h)
    rcases List.mem_map.1 h2 with ⟨pr, hmem, heq⟩
    have hb : pr.1 < vecs.length := by
      have hg := List.mem_enum_iff_getElem?.1 hmem
      exact (List.getElem?_eq_some.1 hg).1
    exact ⟨pr.1, hb, by rw [← heq]⟩
  · exact Or.inl (List.mem_replicate.1 h).2

lemma replicate_sentinel_filter (n : Nat) :
    (List.replicate n ((-1 : Int), (0 : ℚ))).filter (fun x => x.1 ≠ -1)
      = [] := by
  induction n with
  | zero => rfl
  | succ m ih =>
      rw [List.replicate_succ, List.filter_cons]
      simp [ih]

lemma joinResults_replicate (faqs : List (Nat × FaqRecord)) (n : Nat) :
    joinResults faqs (List.replicate n ((-1 : Int), (0 : ℚ))) = some [] := by
  induction n with
  | zero => rfl
  | succ m ih =>
      rw [List.replicate_succ]
      show joinResults faqs (((-1 : Int), (0 : ℚ)) :: _) = some []
      unfold joinResults
      rw [if_pos rfl]
      exact ih

lemma joinResults_isSome {faqs : List (Nat × FaqRecord)}
    {raw : List (Int × ℚ)}
    (h : ∀ x ∈ raw, x.1 ≠ -1 → (lookupPos faqs x.1.toNat).isSome) :
    (joinResults faqs raw).isSome := by
  induction raw with
  | nil => rfl
  | cons a t ih =>
      obtain ⟨idx, score⟩ := a
      have ht := ih (fun x hx hxs => h x (List.mem_cons_of_mem _ hx) hxs)
      unfold joinResults
      by_cases hs : idx = -1
      · rw [if_pos hs]
        exact ht
      · rw [if_neg hs]
        have hhead := h (idx, score) (List.mem_cons_self _ _) hs
        rcases hr : lookupPos faqs idx.toNat with _ | r
        · rw [hr] at hhead
          simp at hhead
        · rcases Option.isSome_iff_exists.1 ht with ⟨items, hit⟩
          rw [hit]
          rfl

lemma joinResults_length {faqs : List (Nat × FaqRecord)}
    {raw : List (Int × ℚ)} {items : List SearchItem}
    (h : joinResults faqs raw = some items) :
    items.length = (raw.filter (fun x => x.1 ≠ -1)).length := by
  induction raw generalizing items with
  | nil =>
      have : items = [] := by simpa [joinResults] using h.symm
      simp [this]
  | cons a t ih =>
      obtain ⟨idx, score⟩ := a
      unfold joinResults at h
      by_cases hs : idx = -1
      · rw [if_pos hs] at h
        rw [List.filter_cons]
        have hdec : (decide (((idx, score) : Int × ℚ).1 ≠ -1)) = false := by
          simp [hs]
        rw [hdec]
        exact ih h
      · rw [if_neg hs] at h
        rcases hr : lookupPos faqs idx.toNat with _ | r
        · rw [hr] at h
          cases h
        · rw [hr] at h
          rcases ht : joinResults faqs t with _ | items'
          · rw [ht] at h
            cases h
          · rw [ht] at h
            have hitems : items = ⟨r.id, r.question, r.answer, score⟩ :: items' := by
              simpa using h.symm
            rw [List.filter_cons]
            have hdec : (decide (((idx, score) : Int × ℚ).1 ≠ -1)) = true := by
              simp [hs]
            rw [hdec, hitems]
            simp [ih ht]

lemma joinResults_content {faqs : List (Nat × FaqRecord)}
    {raw : List (Int × ℚ)} {items : List SearchItem}
    (h : joinResults faqs raw = some items) :
    ∀ it ∈ items, ∃ (i : Int) (r : FaqRecord),
      (i, it.similarity) ∈ raw ∧ i ≠ -1 ∧
      lookupPos faqs i.toNat = some r ∧
      it.id = r.id ∧ it.question = r.question ∧ it.answer = r.answer := by
  induction raw generalizing items with
  | nil =>
      have : items = [] := by simpa [joinResults] using h.symm
      subst this
      intro it hit
      cases hit
  | cons a t ih =>
      obtain ⟨idx, score⟩ := a
      unfold joinResults at h
      by_cases hs : idx = -1
      · rw [if_pos hs] at h
        intro it hit
        rcases ih h it hit with ⟨i, r, hmem, hrest⟩
        exact ⟨i, r, List.mem_cons_of_mem _ hmem, hrest⟩
      · rw [if_neg hs] at h
        rcases hr : lookupPos faqs idx.toNat with _ | r
        · rw [hr] at h
          cases h
        · rw [hr] at h
          rcases ht : joinResults faqs t with _ | items'
          · rw [ht] at h
            cases h
          · rw [ht] at h
            have hitems : items = ⟨r.id, r.question, r.answer, score⟩ :: items' := by
              simpa using h.symm
            subst hitems
            intro it hit
            rcases List.mem_cons.1 hit with heq | hmt
            · subst heq
              exact ⟨idx, r, List.mem_cons_self _ _, hs, hr, rfl, rfl, rfl⟩
            · rcases ih ht it hmt with ⟨i, r', hmem, hrest⟩
              exact ⟨i, r', List.mem_cons_of_mem _ hmem, hrest⟩

lemma joinResults_none {faqs : List (Nat × FaqRecord)} {raw : List (Int × ℚ)}
    {x : Int × ℚ} (hmem : x ∈ raw) (hs : x.1 ≠ -1)
    (hl : lookupPos faqs x.1.toNat = none) : joinResults faqs raw = none := by
  induction raw with
  | nil => cases hmem
  | cons a t ih =>
      obtain ⟨idx, score⟩ := a
      rcases List.mem_cons.1 hmem with heq | hmt
      · subst heq
        unfold joinResults
        rw [if_neg hs, hl]
      · unfold joinResults
        by_cases hsa : idx = -1
        · rw [if_pos hsa]
          exact ih hmt
        · rw [if_neg hsa]
          rcases hr : lookupPos faqs idx.toNat with _ | r
          · rfl
          · rw [ih hmt]
            rfl

lemma faissSearch_filter_length {V : Type} (sim : V → V → ℚ) (vecs : List V)
    (q : V) (k : Nat) :
    ((faissSearch sim vecs q k).filter (fun x => x.1 ≠ -1)).length ≤
      min k vecs.length := by
  unfold faissSearch
  rw [List.filter_append, replicate_sentinel_filter, List.append_nil]
  calc ((( sortByScoreDesc (vecs.enum.map
          (fun p => ((p.1 : Int), sim q p.2)))).take k).filter
        (fun x => x.1 ≠ -1)).length
      ≤ ((sortByScoreDesc (vecs.enum.map
          (fun p => ((p.1 : Int), sim q p.2)))).take k).length :=
        List.length_filter_le _ _
    _ = min k (sortByScoreDesc (vecs.enum.map
          (fun p => ((p.1 : Int), sim q p.2)))).length := List.length_take _ _
    _ = min k vecs.length := by
        rw [length_sortByScoreDesc, List.length_map, List.enum_length]

/-- C8: a query against a zero-cardinality index returns the
no-high-confidence reply with zero alternatives and no error; more generally
a successful `search` never returns sentinel entries — its result length is
that of the real (non-`-1`) FAISS hits, hence at most
`min top_k cardinality`. -/
theorem empty_index_query_safe :
    (∀ (V : Type) (embed : String → V) (sim : V → V → ℚ)
        (st : ModelState V) (q : String) (k : Nat) (t hc : ℚ),
        st.vecs = [] →
        query embed sim st q k t hc = some (.alternatives [])) ∧
    (∀ (V : Type) (embed : String → V) (sim : V → V → ℚ)
        (st : ModelState V) (q : String) (k : Nat) (items : List SearchItem),
        search embed sim st q k = some items →
        items.length ≤ min k st.vecs.length) := by
  constructor
  · intro V embed sim st q k t hc hvecs
    unfold query search
    rw [hvecs]
    have hfaiss : faissSearch sim ([] : List V) (embed q) k =
        List.replicate k ((-1 : Int), (0 : ℚ)) := by
      unfold faissSearch
      simp [sortByScoreDesc]
    rw [hfaiss, joinResults_replicate]
    rfl
  · intro V embed sim st q k items h
    unfold search at h
    rw [joinResults_length h]
    exact faissSearch_filter_length sim st.vecs (embed q) k

/-- A constant similarity collaborator for concrete search runs. -/
def simQ : Unit → Unit → ℚ := fun _ _ => 1

/-- What `search` returns on `c6State` with constant similarity 1. -/
def c6Items : List SearchItem :=
  [⟨2, "q2", some "a2", 1⟩, ⟨3, "q3", some "a3", 1⟩, ⟨4, "q4", some "a4", 1⟩]

/-- Witness for C8 at concrete inputs: the empty-index query and the length
bound on a populated index. -/
theorem empty_index_query_safe_witness :
    query e0 simQ (initialState Unit) "hello" 3 0 1 =
        some (.alternatives []) ∧
    c6Items.length ≤ min 5 c6State.vecs.length :=
  ⟨empty_index_query_safe.1 Unit e0 simQ (initialState Unit) "hello" 3 0 1 rfl,
   empty_index_query_safe.2 Unit e0 simQ c6State "x" 5 c6Items (by decide)⟩

/-- A state whose FAISS index holds one vector but whose metadata map has no
entry for position 0 (the density invariant is broken). -/
def gapState : ModelState Unit := ⟨[()], [], none, 0⟩

/-- C9: `search` joins every non-sentinel FAISS position through the metadata
map with an unguarded lookup: when the metadata has an entry for every
position below the cardinality, `search` succeeds, and every item it returns
carries exactly the id, question and answer stored for its (non-sentinel)
position; when some returned position lacks its entry, `search` raises
(`none`). -/
theorem search_unguarded_metadata_join :
    (∀ (V : Type) (embed : String → V) (sim : V → V → ℚ)
        (st : ModelState V) (q : String) (k : Nat),
        (∀ i, i < st.vecs.length → (lookupPos st.faqs i).isSome) →
        (search embed sim st q k).isSome) ∧
    (∀ (V : Type) (embed : String → V) (sim : V → V → ℚ)
        (st : ModelState V) (q : String) (k : Nat) (items : List SearchItem),
        search embed sim st q k = some items →
        ∀ it ∈ items, ∃ (i : Int) (r : FaqRecord),
          (i, it.similarity) ∈ faissSearch sim st.vecs (embed q) k ∧
          i ≠ -1 ∧ lookupPos st.faqs i.toNat = some r ∧
          it.id = r.id ∧ it.question = r.question ∧ it.answer = r.answer) ∧
    (∀ (V : Type) (embed : String → V) (sim : V → V → ℚ)
        (st : ModelState V) (q : String) (k : Nat) (x : Int × ℚ),
        x ∈ faissSearch sim st.vecs (embed q) k → x.1 ≠ -1 →
        lookupPos st.faqs x.1.toNat = none →
        search embed sim st q k = none) := by
  refine ⟨?_, ?_, ?_⟩
  · intro V embed sim st q k hdense
    unfold search
    apply joinResults_isSome
    intro x hx hxs
    rcases mem_faissSearch hx with heq | ⟨n, hn, hfst⟩
    · rw [heq] at hxs
      simp at hxs
    · rw [hfst]
      exact hdense n (by simpa using hn)
  · intro V embed sim st q k items h
    unfold search at h
    exact joinResults_content h
  · intro V embed sim st q k x hx hxs hl
    unfold search
    exact joinResults_none hx hxs hl

/-- Witness for C9 at concrete inputs: a dense state searches successfully;
a state with a vector but no metadata entry for its position raises. -/
theorem search_unguarded_metadata_join_witness :
    (search e0 simQ c6State "x" 5).isSome ∧
    search e0 simQ gapState "x" 2 = none :=
  ⟨search_unguarded_metadata_join.1 Unit e0 simQ c6State "x" 5 (by decide),
   search_unguarded_metadata_join.2.2 Unit e0 simQ gapState "x" 2
     ((0 : Int), (1 : ℚ)) (by decide) (by decide) (by decide)⟩

end FaqService
